import Mathlib

/-!
Verification of the DWA (dynamic window approach) local planner in AMR.py.

The program is embedded shallowly over the real numbers:
* a state vector [x, y, theta, v, delta] becomes the structure State;
* the mutable global configuration becomes the structure Config;
* float("inf") costs are modelled by WithTop Real, so a total cost is
  either a coerced real or the top element;
* the while loop of predict_trajectory is realised by a fuel-indexed
  recursion; the fuel floor(predict_time / dt) + 2 is proven sufficient
  for dt > 0, so on that domain the recursion equals the source loop.
-/

namespace AMR

/-- Robot state [x, y, theta, v, delta] as used throughout AMR.py. -/
structure State where
  x : ℝ
  y : ℝ
  theta : ℝ
  v : ℝ
  delta : ℝ

/-- The footprint kind, mirroring class RobotType(Enum). -/
inductive RobotType where
  | circle : RobotType
  | rectangle : RobotType
deriving DecidableEq

/-- Numeric parameters of class Config (the obstacle array is passed
separately, as the planner functions receive it as an argument). -/
structure Config where
  max_speed : ℝ
  min_speed : ℝ
  max_steering_angle : ℝ
  max_accel : ℝ
  max_steering_rate : ℝ
  v_resolution : ℝ
  steering_resolution : ℝ
  dt : ℝ
  predict_time : ℝ
  to_goal_cost_gain : ℝ
  speed_cost_gain : ℝ
  obstacle_cost_gain : ℝ
  robot_stuck_flag_cons : ℝ
  robot_type : RobotType
  robot_radius : ℝ
  robot_width : ℝ
  robot_length : ℝ
  wheelbase : ℝ

/-- Bicycle model step, function motion(x, u, dt, wheelbase):
x += v cos(theta) dt, y += v sin(theta) dt,
theta += (v / wheelbase) tan(delta) dt, v and delta are overwritten. -/
noncomputable def motion (s : State) (u : ℝ × ℝ) (dt wheelbase : ℝ) : State :=
  { x := s.x + u.1 * Real.cos s.theta * dt
    y := s.y + u.1 * Real.sin s.theta * dt
    theta := s.theta + (u.1 / wheelbase) * Real.tan u.2 * dt
    v := u.1
    delta := u.2 }

/-- The list [vmin, vmax, steer_min, steer_max] returned by
calc_dynamic_window, with named fields. -/
structure DW where
  vmin : ℝ
  vmax : ℝ
  smin : ℝ
  smax : ℝ

/-- Function calc_dynamic_window: per-axis intersection of the absolute
window Vs with the reachable window Vd. -/
noncomputable def calc_dynamic_window (s : State) (cfg : Config) : DW :=
  { vmin := max cfg.min_speed (s.v - cfg.max_accel * cfg.dt)
    vmax := min cfg.max_speed (s.v + cfg.max_accel * cfg.dt)
    smin := max (-cfg.max_steering_angle) (s.delta - cfg.max_steering_rate * cfg.dt)
    smax := min cfg.max_steering_angle (s.delta + cfg.max_steering_rate * cfg.dt) }

/-- Body of the while loop of predict_trajectory, indexed by fuel.
While time <= predict_time, one motion step is taken, the new state is
appended, and time advances by dt; the fuel only has to dominate the
number of iterations, which predictAux_length makes precise. -/
noncomputable def predictAux (cfg : Config) (u : ℝ × ℝ) :
    ℕ → ℝ → State → List State → List State
  | 0, _, _, trajectory => trajectory
  | fuel + 1, time, s, trajectory =>
    if time ≤ cfg.predict_time then
      predictAux cfg u fuel (time + cfg.dt) (motion s u cfg.dt cfg.wheelbase)
        (trajectory ++ [motion s u cfg.dt cfg.wheelbase])
    else trajectory

/-- Fuel sufficient for the loop of predict_trajectory when dt > 0:
the loop body runs floor(predict_time / dt) + 1 times. -/
noncomputable def predictFuel (cfg : Config) : ℕ :=
  (Int.floor (cfg.predict_time / cfg.dt)).toNat + 2

/-- Function predict_trajectory(x_init, v, delta, config): the roll-out
of motion under the fixed command (v, delta), starting from the list
holding only the initial state. -/
noncomputable def predict_trajectory (x_init : State) (v delta : ℝ) (cfg : Config) :
    List State :=
  predictAux cfg (v, delta) (predictFuel cfg) 0 x_init [x_init]

/-- Exact number of iterations the loop performs from a given time. -/
noncomputable def iterCount (p dt time : ℝ) : ℕ :=
  if time ≤ p then (Int.floor ((p - time) / dt)).toNat + 1 else 0

/-- Last row trajectory[-1] of a trajectory; numpy indexing presumes a
nonempty array, so the default state is never reached by the code
(predict_trajectory always returns a nonempty list). -/
noncomputable def lastState (l : List State) : State := l.getLastD ⟨0, 0, 0, 0, 0⟩

/-- math.atan2(y, x), realised as the argument of the complex number
x + i y; both have range (-pi, pi] and send (0, 0) to 0. -/
noncomputable def atan2 (y x : ℝ) : ℝ := Complex.arg ⟨x, y⟩

/-- Function calc_to_goal_cost(trajectory, goal): absolute angular
difference between the bearing of the goal from the final position and
the final heading, normalised through atan2(sin, cos). -/
noncomputable def calc_to_goal_cost (trajectory : List State) (goal : ℝ × ℝ) : ℝ :=
  |atan2 (Real.sin (atan2 (goal.2 - (lastState trajectory).y)
                          (goal.1 - (lastState trajectory).x) -
                   (lastState trajectory).theta))
         (Real.cos (atan2 (goal.2 - (lastState trajectory).y)
                          (goal.1 - (lastState trajectory).x) -
                   (lastState trajectory).theta))|

/-- The matrix r = np.hypot(dx, dy) of calc_obstacle_cost, flattened:
the Euclidean distance of every (obstacle, trajectory point) pair. -/
noncomputable def pairDists (trajectory : List State) (ob : List (ℝ × ℝ)) : List ℝ :=
  ob.flatMap fun o =>
    trajectory.map fun s => Real.sqrt ((s.x - o.1) ^ 2 + (s.y - o.2) ^ 2)

/-- np.min of a flattened array; numpy raises on an empty array, so the
0 default is never reached under the nonemptiness hypotheses used. -/
noncomputable def listMin : List ℝ → ℝ
  | [] => 0
  | a :: l => l.foldl min a

/-- The rectangle collision test of calc_obstacle_cost. The numpy
broadcast applies every rotation matrix (one per trajectory point k) to
every difference vector obstacle minus trajectory point s, hence the
three nested quantifiers. A hit is a rotated difference vector inside
[-robot_length / 2, robot_length / 2] x [-robot_width / 2, robot_width / 2]. -/
def rectHit (trajectory : List State) (ob : List (ℝ × ℝ)) (cfg : Config) : Prop :=
  ∃ k ∈ trajectory, ∃ o ∈ ob, ∃ s ∈ trajectory,
    (o.1 - s.x) * Real.cos k.theta + (o.2 - s.y) * Real.sin k.theta ≤
      cfg.robot_length / 2 ∧
    -((o.1 - s.x)) * Real.sin k.theta + (o.2 - s.y) * Real.cos k.theta ≤
      cfg.robot_width / 2 ∧
    -(cfg.robot_length / 2) ≤
      (o.1 - s.x) * Real.cos k.theta + (o.2 - s.y) * Real.sin k.theta ∧
    -(cfg.robot_width / 2) ≤
      -((o.1 - s.x)) * Real.sin k.theta + (o.2 - s.y) * Real.cos k.theta

open Classical in
/-- Function calc_obstacle_cost(trajectory, ob, config): returns the top
element (float inf) on a footprint collision, otherwise 1 / min over all
pairwise distances. -/
noncomputable def calc_obstacle_cost (trajectory : List State) (ob : List (ℝ × ℝ))
    (cfg : Config) : WithTop ℝ :=
  match cfg.robot_type with
  | RobotType.rectangle =>
    if rectHit trajectory ob cfg then ⊤
    else ((1 / listMin (pairDists trajectory ob) : ℝ) : WithTop ℝ)
  | RobotType.circle =>
    if ∃ r ∈ pairDists trajectory ob, r ≤ cfg.robot_radius then ⊤
    else ((1 / listMin (pairDists trajectory ob) : ℝ) : WithTop ℝ)

/-- Multiplication of a finite float gain with a possibly infinite cost.
IEEE floats give gain * inf = inf for gain > 0, which is the regime of
every gain of Config; the top element is accordingly preserved. -/
noncomputable def gainMul (a : ℝ) : WithTop ℝ → WithTop ℝ :=
  WithTop.map fun c => a * c

/-- The final_cost of one candidate (v, delta) inside
calc_control_and_trajectory: gain-weighted goal, speed and obstacle
terms; the sum is the top element exactly when the obstacle term is. -/
noncomputable def trajCost (s : State) (cfg : Config) (goal : ℝ × ℝ)
    (ob : List (ℝ × ℝ)) (v delta : ℝ) : WithTop ℝ :=
  ((cfg.to_goal_cost_gain * calc_to_goal_cost (predict_trajectory s v delta cfg) goal +
    cfg.speed_cost_gain *
      (cfg.max_speed - (lastState (predict_trajectory s v delta cfg)).v) : ℝ) :
    WithTop ℝ) +
  gainMul cfg.obstacle_cost_gain (calc_obstacle_cost (predict_trajectory s v delta cfg) ob cfg)

/-- The loop state of calc_control_and_trajectory: incumbent minimal
cost, incumbent command and incumbent trajectory. -/
structure PlanAcc where
  min_cost : WithTop ℝ
  best_u : ℝ × ℝ
  best_trajectory : List State

open Classical in
/-- One iteration of the double loop of calc_control_and_trajectory for
the candidate c = (v, delta): on min_cost >= final_cost the incumbent is
replaced, and the stuck-avoidance override immediately rewrites the
steering of the new incumbent when both the candidate velocity and the
current speed are below robot_stuck_flag_cons. -/
noncomputable def planStep (s : State) (cfg : Config) (goal : ℝ × ℝ)
    (ob : List (ℝ × ℝ)) (acc : PlanAcc) (c : ℝ × ℝ) : PlanAcc :=
  if acc.min_cost ≥ trajCost s cfg goal ob c.1 c.2 then
    { min_cost := trajCost s cfg goal ob c.1 c.2
      best_u :=
        if |c.1| < cfg.robot_stuck_flag_cons ∧ |s.v| < cfg.robot_stuck_flag_cons then
          (c.1, -cfg.max_steering_angle)
        else (c.1, c.2)
      best_trajectory := predict_trajectory s c.1 c.2 cfg }
  else acc

/-- np.arange(start, stop, step) for step > 0: the values
start + i * step for 0 <= i < ceil((stop - start) / step). -/
noncomputable def arange (start stop step : ℝ) : List ℝ :=
  (List.range (Int.ceil ((stop - start) / step)).toNat).map fun i =>
    start + (i : ℝ) * step

/-- The candidate pairs enumerated by the double loop of
calc_control_and_trajectory, in enumeration order. -/
noncomputable def candidates (dw : DW) (cfg : Config) : List (ℝ × ℝ) :=
  (arange dw.vmin dw.vmax cfg.v_resolution).flatMap fun v =>
    (arange dw.smin dw.smax cfg.steering_resolution).map fun delta => (v, delta)

/-- Function calc_control_and_trajectory(x, dw, config, goal, ob): fold
of planStep over the candidates, starting from min_cost = inf,
best_u = [0, 0] and best_trajectory = [x]. -/
noncomputable def calc_control_and_trajectory (s : State) (dw : DW) (cfg : Config)
    (goal : ℝ × ℝ) (ob : List (ℝ × ℝ)) : (ℝ × ℝ) × List State :=
  ((((candidates dw cfg).foldl (planStep s cfg goal ob) ⟨⊤, (0, 0), [s]⟩).best_u),
   (((candidates dw cfg).foldl (planStep s cfg goal ob) ⟨⊤, (0, 0), [s]⟩).best_trajectory))

/-- Function dwa_control(x, config, goal, ob). -/
noncomputable def dwa_control (s : State) (cfg : Config) (goal : ℝ × ℝ)
    (ob : List (ℝ × ℝ)) : (ℝ × ℝ) × List State :=
  calc_control_and_trajectory s (calc_dynamic_window s cfg) cfg goal ob

open Classical in
/-- The returned incumbent was produced by candidate c: its cost is the
incumbent cost, its trajectory the incumbent trajectory, and the
incumbent command is c up to the stuck-avoidance steering override. -/
def producedBy (s : State) (cfg : Config) (goal : ℝ × ℝ) (ob : List (ℝ × ℝ))
    (r : PlanAcc) (c : ℝ × ℝ) : Prop :=
  r.min_cost = trajCost s cfg goal ob c.1 c.2 ∧
  r.best_trajectory = predict_trajectory s c.1 c.2 cfg ∧
  r.best_u =
    (if |c.1| < cfg.robot_stuck_flag_cons ∧ |s.v| < cfg.robot_stuck_flag_cons then
      (c.1, -cfg.max_steering_angle)
    else (c.1, c.2))

/-- Origin state with zero heading, speed and steering. -/
def s0 : State := ⟨0, 0, 0, 0, 0⟩

/-- A small concrete configuration used to instantiate the theorems:
one prediction step (predict_time = 0, dt = 1), unit gains and
resolutions, circular footprint of radius 1. -/
noncomputable def cfgA : Config :=
  { max_speed := 1
    min_speed := 0
    max_steering_angle := 2
    max_accel := 1
    max_steering_rate := 1
    v_resolution := 1
    steering_resolution := 1
    dt := 1
    predict_time := 0
    to_goal_cost_gain := 1
    speed_cost_gain := 1
    obstacle_cost_gain := 1
    robot_stuck_flag_cons := 1 / 1000
    robot_type := RobotType.circle
    robot_radius := 1
    robot_width := 1
    robot_length := 1
    wheelbase := 1 }

/-- cfgA with prediction horizon predict_time = 1 = dt, so that dt
divides predict_time exactly. -/
noncomputable def cfgB : Config :=
  { cfgA with predict_time := 1 }

/-- Window enumerating the single candidate (0, -1/2). -/
noncomputable def dwA : DW := ⟨0, 1/2, -1/2, 1/2⟩

/-- Window enumerating the candidates (0, 1/2) and (1, 1/2). -/
noncomputable def dwB : DW := ⟨0, 2, 1/2, 3/2⟩

/-- Window that is empty on the velocity axis: vmax < vmin. -/
noncomputable def dwC : DW := ⟨1, 0, 0, 1⟩

/-- A goal point used by the concrete instances. -/
noncomputable def goalA : ℝ × ℝ := (1, 0)

/-- An obstacle far from the origin: no collision for trajectories that
stay at the origin. -/
noncomputable def obA : List (ℝ × ℝ) := [(5, 0)]

/-- An obstacle at the origin: every trajectory starting at s0 collides
immediately. -/
noncomputable def obB : List (ℝ × ℝ) := [(0, 0)]

theorem iterCount_step {p dt time : ℝ} (hdt : 0 < dt) (h : time ≤ p) :
    iterCount p dt time = iterCount p dt (time + dt) + 1 := by
  by_cases h2 : time + dt ≤ p
  · have key : Int.floor ((p - time) / dt) = Int.floor ((p - (time + dt)) / dt) + 1 := by
      have : (p - time) / dt = (p - (time + dt)) / dt + 1 := by
        field_simp
        ring
      rw [this, Int.floor_add_one]
    have hnn : 0 ≤ Int.floor ((p - (time + dt)) / dt) := by
      apply Int.floor_nonneg.mpr
      apply div_nonneg (by linarith) hdt.le
    simp only [iterCount, if_pos h, if_pos h2, key]
    omega
  · have hz : Int.floor ((p - time) / dt) = 0 := by
      rw [Int.floor_eq_zero_iff]
      constructor
      · exact div_nonneg (by linarith) hdt.le
      · rw [div_lt_one hdt]
        linarith [lt_of_not_le h2]
    simp [iterCount, if_pos h, if_neg h2, hz]

theorem predictAux_length (cfg : Config) (u : ℝ × ℝ) (hdt : 0 < cfg.dt) :
    ∀ (fuel : ℕ) (time : ℝ) (s : State) (acc : List State),
      iterCount cfg.predict_time cfg.dt time ≤ fuel →
      (predictAux cfg u fuel time s acc).length =
        acc.length + iterCount cfg.predict_time cfg.dt time := by
  intro fuel
  induction fuel with
  | zero =>
    intro time s acc hle
    have h0 : iterCount cfg.predict_time cfg.dt time = 0 := Nat.le_zero.mp hle
    simp [predictAux, h0]
  | succ n ih =>
    intro time s acc hle
    by_cases h : time ≤ cfg.predict_time
    · have hstep := iterCount_step hdt h
      rw [predictAux, if_pos h, ih (time + cfg.dt) _ _ (by omega)]
      simp only [List.length_append, List.length_singleton]
      omega
    · have h0 : iterCount cfg.predict_time cfg.dt time = 0 := by
        simp [iterCount, if_neg h]
      rw [predictAux, if_neg h, h0, Nat.add_zero]

theorem predictAux_prefix (cfg : Config) (u : ℝ × ℝ) :
    ∀ (fuel : ℕ) (time : ℝ) (s : State) (acc : List State),
      ∃ l, predictAux cfg u fuel time s acc = acc ++ l := by
  intro fuel
  induction fuel with
  | zero => intro time s acc; exact ⟨[], by simp [predictAux]⟩
  | succ n ih =>
    intro time s acc
    by_cases h : time ≤ cfg.predict_time
    · obtain ⟨l, hl⟩ := ih (time + cfg.dt) (motion s u cfg.dt cfg.wheelbase)
        (acc ++ [motion s u cfg.dt cfg.wheelbase])
      exact ⟨motion s u cfg.dt cfg.wheelbase :: l, by
        rw [predictAux, if_pos h, hl, List.append_assoc]; rfl⟩
    · exact ⟨[], by rw [predictAux, if_neg h]; simp⟩

theorem predict_trajectory_cons (x_init : State) (v delta : ℝ) (cfg : Config) :
    ∃ l, predict_trajectory x_init v delta cfg = x_init :: l := by
  obtain ⟨l, hl⟩ := predictAux_prefix cfg (v, delta) (predictFuel cfg) 0 x_init [x_init]
  exact ⟨l, by rw [predict_trajectory, hl]; rfl⟩

/-- Claim C9: for every state, every dt, every wheelbase > 0 and every
steering angle, a motion step with command velocity 0 leaves the position
(x, y) and the heading unchanged. -/
theorem motion_zero_velocity_fixes_pose (s : State) (delta dt wheelbase : ℝ)
    (_h : 0 < wheelbase) :
    (motion s (0, delta) dt wheelbase).x = s.x ∧
    (motion s (0, delta) dt wheelbase).y = s.y ∧
    (motion s (0, delta) dt wheelbase).theta = s.theta := by
  refine ⟨?_, ?_, ?_⟩ <;> simp [motion]

/-- Witness for C9 at the concrete state (1, 2, 3, 4, 5), steering 6,
dt 7, wheelbase 1. -/
theorem motion_zero_velocity_fixes_pose_witness :
    0 < (1 : ℝ) ∧
    ((motion ⟨1, 2, 3, 4, 5⟩ (0, 6) 7 1).x = 1 ∧
     (motion ⟨1, 2, 3, 4, 5⟩ (0, 6) 7 1).y = 2 ∧
     (motion ⟨1, 2, 3, 4, 5⟩ (0, 6) 7 1).theta = 3) :=
  ⟨by norm_num, motion_zero_velocity_fixes_pose ⟨1, 2, 3, 4, 5⟩ 6 7 1 (by norm_num)⟩

/-- Claim C5: the dynamic window bounds are ordered on an axis whenever
the reachable window overlaps the absolute window on that axis, and the
returned intervals are always subsets of [min_speed, max_speed] and
[-max_steering_angle, max_steering_angle]. -/
theorem calc_dynamic_window_bounds (s : State) (cfg : Config) :
    ((∃ z, (cfg.min_speed ≤ z ∧ z ≤ cfg.max_speed) ∧
        (s.v - cfg.max_accel * cfg.dt ≤ z ∧ z ≤ s.v + cfg.max_accel * cfg.dt)) →
      (calc_dynamic_window s cfg).vmin ≤ (calc_dynamic_window s cfg).vmax) ∧
    ((∃ z, (-cfg.max_steering_angle ≤ z ∧ z ≤ cfg.max_steering_angle) ∧
        (s.delta - cfg.max_steering_rate * cfg.dt ≤ z ∧
         z ≤ s.delta + cfg.max_steering_rate * cfg.dt)) →
      (calc_dynamic_window s cfg).smin ≤ (calc_dynamic_window s cfg).smax) ∧
    Set.Icc (calc_dynamic_window s cfg).vmin (calc_dynamic_window s cfg).vmax ⊆
      Set.Icc cfg.min_speed cfg.max_speed ∧
    Set.Icc (calc_dynamic_window s cfg).smin (calc_dynamic_window s cfg).smax ⊆
      Set.Icc (-cfg.max_steering_angle) cfg.max_steering_angle := by
  refine ⟨?_, ?_, ?_, ?_⟩
  · rintro ⟨z, ⟨h1, h2⟩, h3, h4⟩
    exact max_le (le_min (h1.trans h2) (h1.trans h4)) (le_min (h3.trans h2) (h3.trans h4))
  · rintro ⟨z, ⟨h1, h2⟩, h3, h4⟩
    exact max_le (le_min (h1.trans h2) (h1.trans h4)) (le_min (h3.trans h2) (h3.trans h4))
  · exact Set.Icc_subset_Icc (le_max_left _ _) (min_le_left _ _)
  · exact Set.Icc_subset_Icc (le_max_left _ _) (min_le_left _ _)

/-- Witness for C5 at a concrete state and config: speed 0 and steering 0
lie in both windows when min_speed = -1, max_speed = 1, max_accel = 1,
max_steering_rate = 1, max_steering_angle = 1, dt = 1. -/
theorem calc_dynamic_window_bounds_witness :
    let cfg : Config :=
      ⟨1, -1, 1, 1, 1, 1, 1, 1, 1, 1, 1, 1, 1, RobotType.circle, 1, 1, 1, 1⟩
    let s : State := ⟨0, 0, 0, 0, 0⟩
    (calc_dynamic_window s cfg).vmin ≤ (calc_dynamic_window s cfg).vmax ∧
    (calc_dynamic_window s cfg).smin ≤ (calc_dynamic_window s cfg).smax ∧
    Set.Icc (calc_dynamic_window s cfg).vmin (calc_dynamic_window s cfg).vmax ⊆
      Set.Icc cfg.min_speed cfg.max_speed := by
  intro cfg s
  refine ⟨(calc_dynamic_window_bounds s cfg).1 ⟨0, by norm_num⟩,
    (calc_dynamic_window_bounds s cfg).2.1 ⟨0, by norm_num⟩,
    (calc_dynamic_window_bounds s cfg).2.2.1⟩

theorem planStep_min_cost (s : State) (cfg : Config) (goal : ℝ × ℝ)
    (ob : List (ℝ × ℝ)) (acc : PlanAcc) (c : ℝ × ℝ) :
    (planStep s cfg goal ob acc c).min_cost =
      min acc.min_cost (trajCost s cfg goal ob c.1 c.2) := by
  unfold planStep
  by_cases h : acc.min_cost ≥ trajCost s cfg goal ob c.1 c.2
  · rw [if_pos h]
    exact (min_eq_right h).symm
  · rw [if_neg h]
    exact (min_eq_left (le_of_not_le h)).symm

theorem planFold_min_cost (s : State) (cfg : Config) (goal : ℝ × ℝ)
    (ob : List (ℝ × ℝ)) (l : List (ℝ × ℝ)) :
    ∀ acc : PlanAcc,
      (l.foldl (planStep s cfg goal ob) acc).min_cost =
        l.foldl (fun m c => min m (trajCost s cfg goal ob c.1 c.2)) acc.min_cost := by
  induction l with
  | nil => intro acc; rfl
  | cons c l ih =>
    intro acc
    simp only [List.foldl_cons, ih, planStep_min_cost]

theorem foldl_min_le_init {β : Type} (f : β → WithTop ℝ) (l : List β) :
    ∀ m : WithTop ℝ, l.foldl (fun m c => min m (f c)) m ≤ m := by
  induction l with
  | nil => intro m; exact le_refl m
  | cons c l ih =>
    intro m
    exact (ih (min m (f c))).trans (min_le_left _ _)

theorem foldl_min_le_mem {β : Type} (f : β → WithTop ℝ) (l : List β) :
    ∀ m : WithTop ℝ, ∀ c ∈ l, l.foldl (fun m c => min m (f c)) m ≤ f c := by
  induction l with
  | nil => intro m c hc; exact absurd hc (List.not_mem_nil c)
  | cons d l ih =>
    intro m c hc
    rcases List.mem_cons.mp hc with h | h
    · subst h
      exact (foldl_min_le_init f l _).trans (min_le_right _ _)
    · exact ih _ c h

theorem le_foldl_min {β : Type} (f : β → WithTop ℝ) (l : List β) :
    ∀ (a m : WithTop ℝ), a ≤ m → (∀ c ∈ l, a ≤ f c) →
      a ≤ l.foldl (fun m c => min m (f c)) m := by
  induction l with
  | nil => intro a m h _; exact h
  | cons c l ih =>
    intro a m h hall
    exact ih a _ (le_min h (hall c (List.mem_cons_self c l)))
      fun d hd => hall d (List.mem_cons_of_mem c hd)

theorem planStep_replace (s : State) (cfg : Config) (goal : ℝ × ℝ)
    (ob : List (ℝ × ℝ)) (acc : PlanAcc) (c : ℝ × ℝ)
    (h : acc.min_cost ≥ trajCost s cfg goal ob c.1 c.2) :
    producedBy s cfg goal ob (planStep s cfg goal ob acc c) c := by
  unfold planStep producedBy
  rw [if_pos h]
  exact ⟨rfl, rfl, rfl⟩

theorem planStep_keep (s : State) (cfg : Config) (goal : ℝ × ℝ)
    (ob : List (ℝ × ℝ)) (acc : PlanAcc) (c : ℝ × ℝ)
    (h : ¬ acc.min_cost ≥ trajCost s cfg goal ob c.1 c.2) :
    planStep s cfg goal ob acc c = acc := by
  unfold planStep
  rw [if_neg h]

theorem planFold_produced_or_eq (s : State) (cfg : Config) (goal : ℝ × ℝ)
    (ob : List (ℝ × ℝ)) (l : List (ℝ × ℝ)) :
    ∀ acc : PlanAcc,
      l.foldl (planStep s cfg goal ob) acc = acc ∨
        ∃ c ∈ l, producedBy s cfg goal ob (l.foldl (planStep s cfg goal ob) acc) c := by
  induction l with
  | nil => intro acc; exact Or.inl rfl
  | cons c l ih =>
    intro acc
    rcases ih (planStep s cfg goal ob acc c) with heq | ⟨c', hc', hp⟩
    · by_cases h : acc.min_cost ≥ trajCost s cfg goal ob c.1 c.2
      · refine Or.inr ⟨c, List.mem_cons_self c l, ?_⟩
        rw [List.foldl_cons, heq]
        exact planStep_replace s cfg goal ob acc c h
      · refine Or.inl ?_
        rw [List.foldl_cons, heq, planStep_keep s cfg goal ob acc c h]
    · exact Or.inr ⟨c', List.mem_cons_of_mem c hc', by rw [List.foldl_cons]; exact hp⟩

theorem planFold_nonempty_produced (s : State) (cfg : Config) (goal : ℝ × ℝ)
    (ob : List (ℝ × ℝ)) (l : List (ℝ × ℝ)) (hne : l ≠ [])
    (u0 : ℝ × ℝ) (t0 : List State) :
    ∃ c ∈ l,
      producedBy s cfg goal ob
        (l.foldl (planStep s cfg goal ob) ⟨⊤, u0, t0⟩) c := by
  match l, hne with
  | c :: l, _ =>
    have hrep : producedBy s cfg goal ob
        (planStep s cfg goal ob ⟨⊤, u0, t0⟩ c) c :=
      planStep_replace s cfg goal ob ⟨⊤, u0, t0⟩ c le_top
    rcases planFold_produced_or_eq s cfg goal ob l
        (planStep s cfg goal ob ⟨⊤, u0, t0⟩ c) with heq | ⟨c', hc', hp⟩
    · exact ⟨c, List.mem_cons_self c l, by rw [List.foldl_cons, heq]; exact hrep⟩
    · exact ⟨c', List.mem_cons_of_mem c hc', by rw [List.foldl_cons]; exact hp⟩

theorem planFold_no_improve (s : State) (cfg : Config) (goal : ℝ × ℝ)
    (ob : List (ℝ × ℝ)) (l : List (ℝ × ℝ)) :
    ∀ acc : PlanAcc, (∀ c ∈ l, ¬ trajCost s cfg goal ob c.1 c.2 ≤ acc.min_cost) →
      l.foldl (planStep s cfg goal ob) acc = acc := by
  induction l with
  | nil => intro acc _; rfl
  | cons c l ih =>
    intro acc hall
    rw [List.foldl_cons, planStep_keep s cfg goal ob acc c
      (hall c (List.mem_cons_self c l))]
    exact ih acc fun d hd => hall d (List.mem_cons_of_mem c hd)

theorem planFold_last_min (s : State) (cfg : Config) (goal : ℝ × ℝ)
    (ob : List (ℝ × ℝ)) (l1 l2 : List (ℝ × ℝ)) (c : ℝ × ℝ)
    (h1 : ∀ c' ∈ l1, trajCost s cfg goal ob c.1 c.2 ≤ trajCost s cfg goal ob c'.1 c'.2)
    (h2 : ∀ c' ∈ l2, ¬ trajCost s cfg goal ob c'.1 c'.2 ≤ trajCost s cfg goal ob c.1 c.2)
    (u0 : ℝ × ℝ) (t0 : List State) :
    producedBy s cfg goal ob
      ((l1 ++ c :: l2).foldl (planStep s cfg goal ob) ⟨⊤, u0, t0⟩) c := by
  rw [List.foldl_append, List.foldl_cons]
  have hm1 : trajCost s cfg goal ob c.1 c.2 ≤
      (l1.foldl (planStep s cfg goal ob) ⟨⊤, u0, t0⟩).min_cost := by
    rw [planFold_min_cost]
    exact le_foldl_min _ l1 _ _ le_top h1
  have hrep := planStep_replace s cfg goal ob
    (l1.foldl (planStep s cfg goal ob) ⟨⊤, u0, t0⟩) c hm1
  have hmin : (planStep s cfg goal ob
      (l1.foldl (planStep s cfg goal ob) ⟨⊤, u0, t0⟩) c).min_cost =
      trajCost s cfg goal ob c.1 c.2 := hrep.1
  rw [planFold_no_improve s cfg goal ob l2 _ (by rw [hmin]; exact h2)]
  exact hrep

theorem mem_pairDists {trajectory : List State} {ob : List (ℝ × ℝ)}
    {p : State} {o : ℝ × ℝ} (hp : p ∈ trajectory) (ho : o ∈ ob) :
    Real.sqrt ((p.x - o.1) ^ 2 + (p.y - o.2) ^ 2) ∈ pairDists trajectory ob := by
  unfold pairDists
  exact List.mem_flatMap.mpr ⟨o, ho, List.mem_map.mpr ⟨p, hp, rfl⟩⟩

theorem pairDists_shape {trajectory : List State} {ob : List (ℝ × ℝ)} {r : ℝ}
    (hr : r ∈ pairDists trajectory ob) :
    ∃ o ∈ ob, ∃ p ∈ trajectory, r = Real.sqrt ((p.x - o.1) ^ 2 + (p.y - o.2) ^ 2) := by
  unfold pairDists at hr
  obtain ⟨o, ho, hmem⟩ := List.mem_flatMap.mp hr
  obtain ⟨p, hp, hpr⟩ := List.mem_map.mp hmem
  exact ⟨o, ho, p, hp, hpr.symm⟩

theorem listMin_mem : ∀ (l : List ℝ), l ≠ [] → listMin l ∈ l := by
  have aux : ∀ (t : List ℝ) (a : ℝ), t.foldl min a ∈ a :: t := by
    intro t
    induction t with
    | nil => intro a; exact List.mem_singleton.mpr rfl
    | cons b t ih =>
      intro a
      rcases List.mem_cons.mp (ih (min a b)) with h | h
      · rcases min_choice a b with hm | hm
        · exact List.mem_cons.mpr (Or.inl (h.trans hm))
        · exact List.mem_cons.mpr
            (Or.inr (List.mem_cons.mpr (Or.inl (h.trans hm))))
      · exact List.mem_cons.mpr (Or.inr (List.mem_cons.mpr (Or.inr h)))
  intro l hl
  match l, hl with
  | a :: t, _ => exact aux t a

theorem calc_obstacle_cost_circle_top {cfg : Config} {trajectory : List State}
    {ob : List (ℝ × ℝ)} (htype : cfg.robot_type = RobotType.circle)
    (hhit : ∃ p ∈ trajectory, ∃ o ∈ ob,
      Real.sqrt ((p.x - o.1) ^ 2 + (p.y - o.2) ^ 2) ≤ cfg.robot_radius) :
    calc_obstacle_cost trajectory ob cfg = ⊤ := by
  obtain ⟨p, hp, o, ho, hle⟩ := hhit
  unfold calc_obstacle_cost
  rw [htype]
  exact if_pos ⟨_, mem_pairDists hp ho, hle⟩

theorem calc_obstacle_cost_rect_top {cfg : Config} {trajectory : List State}
    {ob : List (ℝ × ℝ)} (htype : cfg.robot_type = RobotType.rectangle)
    (hhit : rectHit trajectory ob cfg) :
    calc_obstacle_cost trajectory ob cfg = ⊤ := by
  unfold calc_obstacle_cost
  rw [htype]
  exact if_pos hhit

theorem calc_obstacle_cost_cases (cfg : Config) (trajectory : List State)
    (ob : List (ℝ × ℝ)) :
    calc_obstacle_cost trajectory ob cfg = ⊤ ∨
      calc_obstacle_cost trajectory ob cfg =
        ((1 / listMin (pairDists trajectory ob) : ℝ) : WithTop ℝ) := by
  unfold calc_obstacle_cost
  cases h : cfg.robot_type with
  | rectangle =>
    by_cases hh : rectHit trajectory ob cfg
    · exact Or.inl (if_pos hh)
    · exact Or.inr (if_neg hh)
  | circle =>
    by_cases hh : ∃ r ∈ pairDists trajectory ob, r ≤ cfg.robot_radius
    · exact Or.inl (if_pos hh)
    · exact Or.inr (if_neg hh)

/-- Claim C10: the final division 1.0 / min_r of calc_obstacle_cost is
never a division by zero. With nonnegative footprint dimensions, any
(trajectory point, obstacle) pair at distance 0 triggers the infinite
collision return first, so whenever the division is reached the minimal
pairwise distance is strictly positive. -/
theorem calc_obstacle_cost_division_safe (cfg : Config) (trajectory : List State)
    (ob : List (ℝ × ℝ)) (htr : trajectory ≠ []) (hob : ob ≠ [])
    (hrad : 0 ≤ cfg.robot_radius) (hlen : 0 ≤ cfg.robot_length)
    (hwid : 0 ≤ cfg.robot_width) :
    ((∃ p ∈ trajectory, ∃ o ∈ ob,
        Real.sqrt ((p.x - o.1) ^ 2 + (p.y - o.2) ^ 2) = 0) →
      calc_obstacle_cost trajectory ob cfg = ⊤) ∧
    (calc_obstacle_cost trajectory ob cfg ≠ ⊤ →
      0 < listMin (pairDists trajectory ob)) := by
  have key : (∃ p ∈ trajectory, ∃ o ∈ ob,
      Real.sqrt ((p.x - o.1) ^ 2 + (p.y - o.2) ^ 2) = 0) →
      calc_obstacle_cost trajectory ob cfg = ⊤ := by
    rintro ⟨p, hp, o, ho, hzero⟩
    have hsq : (p.x - o.1) ^ 2 + (p.y - o.2) ^ 2 = 0 := by
      have hnn : 0 ≤ (p.x - o.1) ^ 2 + (p.y - o.2) ^ 2 := by positivity
      exact (Real.sqrt_eq_zero hnn).mp hzero
    have hx : o.1 - p.x = 0 := by nlinarith [sq_nonneg (p.x - o.1), sq_nonneg (p.y - o.2)]
    have hy : o.2 - p.y = 0 := by nlinarith [sq_nonneg (p.x - o.1), sq_nonneg (p.y - o.2)]
    cases htype : cfg.robot_type with
    | circle =>
      refine calc_obstacle_cost_circle_top htype ⟨p, hp, o, ho, ?_⟩
      rw [hzero]
      exact hrad
    | rectangle =>
      refine calc_obstacle_cost_rect_top htype ⟨p, hp, o, ho, p, hp, ?_⟩
      rw [hx, hy]
      constructor
      · simp only [zero_mul, add_zero]
        linarith
      constructor
      · simp only [neg_zero, zero_mul, add_zero]
        linarith
      constructor
      · simp only [zero_mul, add_zero]
        linarith
      · simp only [neg_zero, zero_mul, add_zero]
        linarith
  refine ⟨key, ?_⟩
  intro hne
  by_contra hnotpos
  obtain ⟨p0, hp0⟩ := List.exists_mem_of_ne_nil trajectory htr
  obtain ⟨o0, ho0⟩ := List.exists_mem_of_ne_nil ob hob
  have hnil : pairDists trajectory ob ≠ [] :=
    List.ne_nil_of_mem (mem_pairDists hp0 ho0)
  have hmem := listMin_mem (pairDists trajectory ob) hnil
  obtain ⟨o, ho, p, hp, hform⟩ := pairDists_shape hmem
  have hzero : listMin (pairDists trajectory ob) = 0 := by
    have hnn : 0 ≤ listMin (pairDists trajectory ob) := by
      rw [hform]
      exact Real.sqrt_nonneg _
    linarith [le_of_not_lt hnotpos]
  exact hne (key ⟨p, hp, o, ho, by rw [← hform, hzero]⟩)

theorem trajCost_top {s : State} {cfg : Config} {goal : ℝ × ℝ}
    {ob : List (ℝ × ℝ)} {v delta : ℝ}
    (h : calc_obstacle_cost (predict_trajectory s v delta cfg) ob cfg = ⊤) :
    trajCost s cfg goal ob v delta = ⊤ := by
  unfold trajCost gainMul
  rw [h, WithTop.map_top, add_top]

theorem trajCost_lt_top {s : State} {cfg : Config} {goal : ℝ × ℝ}
    {ob : List (ℝ × ℝ)} {v delta : ℝ}
    (h : calc_obstacle_cost (predict_trajectory s v delta cfg) ob cfg ≠ ⊤) :
    trajCost s cfg goal ob v delta < ⊤ := by
  obtain ⟨r, hr⟩ := WithTop.ne_top_iff_exists.mp h
  unfold trajCost gainMul
  rw [← hr, WithTop.map_coe, ← WithTop.coe_add]
  exact WithTop.coe_lt_top _

theorem trajCost_top_of_start_hit {s : State} {cfg : Config} {goal : ℝ × ℝ}
    {ob : List (ℝ × ℝ)} (htype : cfg.robot_type = RobotType.circle)
    (hhit : ∃ o ∈ ob, Real.sqrt ((s.x - o.1) ^ 2 + (s.y - o.2) ^ 2) ≤ cfg.robot_radius)
    (v delta : ℝ) :
    trajCost s cfg goal ob v delta = ⊤ := by
  obtain ⟨o, ho, hle⟩ := hhit
  obtain ⟨l, hl⟩ := predict_trajectory_cons s v delta cfg
  refine trajCost_top (calc_obstacle_cost_circle_top htype ⟨s, ?_, o, ho, hle⟩)
  rw [hl]
  exact List.mem_cons_self s l

/-- Claim C1: with a circular footprint, any (trajectory point, obstacle)
pair at Euclidean distance at most robot_radius makes calc_obstacle_cost
return the infinite cost; and whenever some enumerated candidate of
calc_control_and_trajectory has finite total cost, the returned command
and trajectory are those of a candidate whose total cost is finite (the
steering possibly replaced by the stuck-avoidance override), never of a
candidate with infinite cost. -/
theorem circle_collision_rejected_and_finite_selected :
    (∀ (cfg : Config) (trajectory : List State) (ob : List (ℝ × ℝ)),
      cfg.robot_type = RobotType.circle →
      (∃ p ∈ trajectory, ∃ o ∈ ob,
        Real.sqrt ((p.x - o.1) ^ 2 + (p.y - o.2) ^ 2) ≤ cfg.robot_radius) →
      calc_obstacle_cost trajectory ob cfg = ⊤) ∧
    (∀ (s : State) (dw : DW) (cfg : Config) (goal : ℝ × ℝ) (ob : List (ℝ × ℝ)),
      (∃ c ∈ candidates dw cfg, trajCost s cfg goal ob c.1 c.2 < ⊤) →
      ∃ c ∈ candidates dw cfg, trajCost s cfg goal ob c.1 c.2 < ⊤ ∧
        (calc_control_and_trajectory s dw cfg goal ob).1.1 = c.1 ∧
        (calc_control_and_trajectory s dw cfg goal ob).2 =
          predict_trajectory s c.1 c.2 cfg ∧
        ((calc_control_and_trajectory s dw cfg goal ob).1.2 = c.2 ∨
         (calc_control_and_trajectory s dw cfg goal ob).1.2 =
           -cfg.max_steering_angle)) := by
  constructor
  · intro cfg trajectory ob htype hhit
    exact calc_obstacle_cost_circle_top htype hhit
  · intro s dw cfg goal ob ⟨c0, hc0, hfin⟩
    obtain ⟨c, hc, hprod⟩ := planFold_nonempty_produced s cfg goal ob
      (candidates dw cfg) (List.ne_nil_of_mem hc0) (0, 0) [s]
    have hmin : ((candidates dw cfg).foldl (planStep s cfg goal ob)
        ⟨⊤, (0, 0), [s]⟩).min_cost ≤ trajCost s cfg goal ob c0.1 c0.2 := by
      rw [planFold_min_cost]
      exact foldl_min_le_mem _ (candidates dw cfg) ⊤ c0 hc0
    have hlt : trajCost s cfg goal ob c.1 c.2 < ⊤ := by
      have := hprod.1
      rw [this] at hmin
      exact lt_of_le_of_lt hmin hfin
    have hbu : ((candidates dw cfg).foldl (planStep s cfg goal ob)
        ⟨⊤, (0, 0), [s]⟩).best_u =
        (if |c.1| < cfg.robot_stuck_flag_cons ∧ |s.v| < cfg.robot_stuck_flag_cons then
          (c.1, -cfg.max_steering_angle)
        else (c.1, c.2)) := hprod.2.2
    refine ⟨c, hc, hlt, ?_, hprod.2.1, ?_⟩
    · show ((candidates dw cfg).foldl (planStep s cfg goal ob)
        ⟨⊤, (0, 0), [s]⟩).best_u.1 = c.1
      rw [hbu]
      by_cases hcond : |c.1| < cfg.robot_stuck_flag_cons ∧
          |s.v| < cfg.robot_stuck_flag_cons
      · rw [if_pos hcond]
      · rw [if_neg hcond]
    · by_cases hcond : |c.1| < cfg.robot_stuck_flag_cons ∧
          |s.v| < cfg.robot_stuck_flag_cons
      · refine Or.inr ?_
        show ((candidates dw cfg).foldl (planStep s cfg goal ob)
          ⟨⊤, (0, 0), [s]⟩).best_u.2 = -cfg.max_steering_angle
        rw [hbu, if_pos hcond]
      · refine Or.inl ?_
        show ((candidates dw cfg).foldl (planStep s cfg goal ob)
          ⟨⊤, (0, 0), [s]⟩).best_u.2 = c.2
        rw [hbu, if_neg hcond]

theorem producedBy_best_u_fst {s : State} {cfg : Config} {goal : ℝ × ℝ}
    {ob : List (ℝ × ℝ)} {r : PlanAcc} {c : ℝ × ℝ}
    (h : producedBy s cfg goal ob r c) : r.best_u.1 = c.1 := by
  rw [h.2.2]
  by_cases hcond : |c.1| < cfg.robot_stuck_flag_cons ∧
      |s.v| < cfg.robot_stuck_flag_cons
  · rw [if_pos hcond]
  · rw [if_neg hcond]

theorem producedBy_best_u_snd {s : State} {cfg : Config} {goal : ℝ × ℝ}
    {ob : List (ℝ × ℝ)} {r : PlanAcc} {c : ℝ × ℝ}
    (h : producedBy s cfg goal ob r c) :
    r.best_u.2 = c.2 ∨ r.best_u.2 = -cfg.max_steering_angle := by
  by_cases hcond : |c.1| < cfg.robot_stuck_flag_cons ∧
      |s.v| < cfg.robot_stuck_flag_cons
  · refine Or.inr ?_
    rw [h.2.2, if_pos hcond]
  · refine Or.inl ?_
    rw [h.2.2, if_neg hcond]

/-- Claim C2 (amended): when every enumerated candidate has infinite
(colliding) total cost, calc_control_and_trajectory returns the LAST
enumerated candidate (its steering possibly replaced by the
stuck-avoidance override), because inf >= inf holds at every comparison;
it does not return the zero-velocity safe-stop command. -/
theorem all_infinite_returns_last_candidate (s : State) (dw : DW) (cfg : Config)
    (goal : ℝ × ℝ) (ob : List (ℝ × ℝ)) (l1 : List (ℝ × ℝ)) (c : ℝ × ℝ)
    (hsplit : candidates dw cfg = l1 ++ [c])
    (htop : ∀ c' ∈ candidates dw cfg, trajCost s cfg goal ob c'.1 c'.2 = ⊤) :
    (calc_control_and_trajectory s dw cfg goal ob).1.1 = c.1 ∧
    (calc_control_and_trajectory s dw cfg goal ob).2 =
      predict_trajectory s c.1 c.2 cfg ∧
    ((calc_control_and_trajectory s dw cfg goal ob).1.2 = c.2 ∨
     (calc_control_and_trajectory s dw cfg goal ob).1.2 =
       -cfg.max_steering_angle) := by
  have hprod : producedBy s cfg goal ob
      ((candidates dw cfg).foldl (planStep s cfg goal ob) ⟨⊤, (0, 0), [s]⟩) c := by
    rw [hsplit]
    refine planFold_last_min s cfg goal ob l1 [] c ?_ ?_ (0, 0) [s]
    · intro c' hc'
      rw [htop c' (by rw [hsplit]; exact List.mem_append_left _ hc')]
      exact le_top
    · intro c' hc'
      exact absurd hc' (List.not_mem_nil c')
  exact ⟨producedBy_best_u_fst hprod, hprod.2.1, producedBy_best_u_snd hprod⟩

/-- Claim C4: if the finally selected best candidate has velocity of
magnitude below robot_stuck_flag_cons and the current speed also lies
below that threshold, the returned steering is -max_steering_angle while
the returned velocity and trajectory are the ones computed for that best
candidate. -/
theorem stuck_override_forces_steering (s : State) (dw : DW) (cfg : Config)
    (goal : ℝ × ℝ) (ob : List (ℝ × ℝ)) (hne : candidates dw cfg ≠ [])
    (hv : |(calc_control_and_trajectory s dw cfg goal ob).1.1| <
      cfg.robot_stuck_flag_cons)
    (hx : |s.v| < cfg.robot_stuck_flag_cons) :
    (calc_control_and_trajectory s dw cfg goal ob).1.2 =
      -cfg.max_steering_angle ∧
    ∃ c ∈ candidates dw cfg,
      (calc_control_and_trajectory s dw cfg goal ob).1.1 = c.1 ∧
      (calc_control_and_trajectory s dw cfg goal ob).2 =
        predict_trajectory s c.1 c.2 cfg := by
  obtain ⟨c, hc, hprod⟩ := planFold_nonempty_produced s cfg goal ob
    (candidates dw cfg) hne (0, 0) [s]
  have h1 : ((candidates dw cfg).foldl (planStep s cfg goal ob)
      ⟨⊤, (0, 0), [s]⟩).best_u.1 = c.1 := producedBy_best_u_fst hprod
  have hv' : |((candidates dw cfg).foldl (planStep s cfg goal ob)
      ⟨⊤, (0, 0), [s]⟩).best_u.1| < cfg.robot_stuck_flag_cons := hv
  rw [h1] at hv'
  have hcond : |c.1| < cfg.robot_stuck_flag_cons ∧
      |s.v| < cfg.robot_stuck_flag_cons := ⟨hv', hx⟩
  constructor
  · show ((candidates dw cfg).foldl (planStep s cfg goal ob)
      ⟨⊤, (0, 0), [s]⟩).best_u.2 = -cfg.max_steering_angle
    rw [hprod.2.2, if_pos hcond]
  · exact ⟨c, hc, h1, hprod.2.1⟩

/-- Claim C6: the planner tracks the minimum with a non-strict
comparison, so a later candidate of equal cost replaces the incumbent;
globally, the returned command is the last enumerated candidate
achieving the minimal cost. -/
theorem tie_break_prefers_later_candidate :
    (∀ (s : State) (cfg : Config) (goal : ℝ × ℝ) (ob : List (ℝ × ℝ))
      (acc : PlanAcc) (c : ℝ × ℝ),
      trajCost s cfg goal ob c.1 c.2 = acc.min_cost →
      producedBy s cfg goal ob (planStep s cfg goal ob acc c) c) ∧
    (∀ (s : State) (dw : DW) (cfg : Config) (goal : ℝ × ℝ) (ob : List (ℝ × ℝ))
      (l1 l2 : List (ℝ × ℝ)) (c : ℝ × ℝ),
      candidates dw cfg = l1 ++ c :: l2 →
      (∀ c' ∈ candidates dw cfg,
        trajCost s cfg goal ob c.1 c.2 ≤ trajCost s cfg goal ob c'.1 c'.2) →
      (∀ c' ∈ l2,
        trajCost s cfg goal ob c'.1 c'.2 ≠ trajCost s cfg goal ob c.1 c.2) →
      (calc_control_and_trajectory s dw cfg goal ob).1.1 = c.1 ∧
      (calc_control_and_trajectory s dw cfg goal ob).2 =
        predict_trajectory s c.1 c.2 cfg ∧
      ((calc_control_and_trajectory s dw cfg goal ob).1.2 = c.2 ∨
       (calc_control_and_trajectory s dw cfg goal ob).1.2 =
         -cfg.max_steering_angle)) := by
  constructor
  · intro s cfg goal ob acc c h
    exact planStep_replace s cfg goal ob acc c (le_of_eq h)
  · intro s dw cfg goal ob l1 l2 c hsplit hmin hafter
    have hprod : producedBy s cfg goal ob
        ((candidates dw cfg).foldl (planStep s cfg goal ob) ⟨⊤, (0, 0), [s]⟩) c := by
      rw [hsplit]
      refine planFold_last_min s cfg goal ob l1 l2 c ?_ ?_ (0, 0) [s]
      · intro c' hc'
        exact hmin c' (by rw [hsplit]; exact List.mem_append_left _ hc')
      · intro c' hc' hle
        have hge : trajCost s cfg goal ob c.1 c.2 ≤ trajCost s cfg goal ob c'.1 c'.2 :=
          hmin c' (by
            rw [hsplit]
            exact List.mem_append_right _ (List.mem_cons_of_mem c hc'))
        exact hafter c' hc' (le_antisymm hle hge)
    exact ⟨producedBy_best_u_fst hprod, hprod.2.1, producedBy_best_u_snd hprod⟩

theorem arange_nil {start stop step : ℝ} (hstep : 0 < step) (h : stop < start) :
    arange start stop step = [] := by
  unfold arange
  have hneg : (stop - start) / step < 0 :=
    div_neg_of_neg_of_pos (sub_neg.mpr h) hstep
  have hceil : Int.ceil ((stop - start) / step) ≤ 0 :=
    Int.ceil_le.mpr (by exact_mod_cast hneg.le)
  rw [Int.toNat_of_nonpos hceil]
  rfl

/-- Claim C7: an intersected dynamic window that is empty on some axis
yields no candidates, and calc_control_and_trajectory then returns the
initial best command [0, 0]: zero velocity and zero steering. -/
theorem empty_window_returns_zero_command (s : State) (dw : DW) (cfg : Config)
    (goal : ℝ × ℝ) (ob : List (ℝ × ℝ)) (hv : 0 < cfg.v_resolution)
    (hs : 0 < cfg.steering_resolution)
    (hempty : dw.vmax < dw.vmin ∨ dw.smax < dw.smin) :
    (calc_control_and_trajectory s dw cfg goal ob).1 = (0, 0) := by
  have hnil : candidates dw cfg = [] := by
    rcases hempty with h | h
    · unfold candidates
      rw [arange_nil hv h]
      rfl
    · unfold candidates
      rw [arange_nil hs h]
      simp
  show ((candidates dw cfg).foldl (planStep s cfg goal ob)
    ⟨⊤, (0, 0), [s]⟩).best_u = (0, 0)
  rw [hnil]
  rfl

/-- Claim C3 (amended): for predict_time >= dt > 0 the trajectory starts
with the initial state and contains exactly floor(predict_time / dt) + 1
motion steps after it, total length floor(predict_time / dt) + 2. The
loop guard time <= predict_time is non-strict, so this equals
ceil(predict_time / dt) + 1 steps only when dt does not divide
predict_time; when it divides, one more step runs than the claim
states. -/
theorem predict_trajectory_head_and_length (x : State) (v delta : ℝ) (cfg : Config)
    (h1 : 0 < cfg.dt) (h2 : cfg.dt ≤ cfg.predict_time) :
    (predict_trajectory x v delta cfg).head? = some x ∧
    (predict_trajectory x v delta cfg).length =
      (Int.floor (cfg.predict_time / cfg.dt)).toNat + 2 := by
  constructor
  · obtain ⟨l, hl⟩ := predict_trajectory_cons x v delta cfg
    rw [hl]
    rfl
  · have hp : (0 : ℝ) ≤ cfg.predict_time := le_trans h1.le h2
    have hiter : iterCount cfg.predict_time cfg.dt 0 =
        (Int.floor (cfg.predict_time / cfg.dt)).toNat + 1 := by
      unfold iterCount
      rw [if_pos hp, sub_zero]
    unfold predict_trajectory
    rw [predictAux_length cfg (v, delta) h1 (predictFuel cfg) 0 x [x]
      (by rw [hiter]; unfold predictFuel; omega)]
    rw [hiter]
    simp only [List.length_singleton]
    omega

/-- Claim C3 as stated fails at dt = 1, predict_time = 1: the loop of
predict_trajectory runs at time 0 and at time 1, so the trajectory holds
2 motion steps and has total length 3, while ceil(predict_time / dt) + 1
is 2. -/
theorem predict_trajectory_length_counterexample :
    ¬ ((predict_trajectory s0 0 0 cfgB).length =
        Nat.ceil (cfgB.predict_time / cfgB.dt) + 1) := by
  have hdt : (0 : ℝ) < cfgB.dt := by norm_num [cfgB, cfgA]
  have hiter : iterCount cfgB.predict_time cfgB.dt 0 = 2 := by
    unfold iterCount
    rw [if_pos (by norm_num [cfgB, cfgA])]
    norm_num [cfgB, cfgA]
  have hlen : (predict_trajectory s0 0 0 cfgB).length = 3 := by
    unfold predict_trajectory
    rw [predictAux_length cfgB (0, 0) hdt (predictFuel cfgB) 0 s0 [s0]
      (by rw [hiter]; unfold predictFuel; norm_num [cfgB, cfgA])]
    rw [hiter]
    rfl
  have hceil : Nat.ceil (cfgB.predict_time / cfgB.dt) = 1 := by
    norm_num [cfgB, cfgA]
  rw [hlen, hceil]
  omega

/-- Witness for the amended C3 at cfgB: the trajectory of length
floor(1 / 1) + 2 = 3 starting at s0. -/
theorem predict_trajectory_head_and_length_witness :
    (0 : ℝ) < cfgB.dt ∧ cfgB.dt ≤ cfgB.predict_time ∧
    ((predict_trajectory s0 0 0 cfgB).head? = some s0 ∧
     (predict_trajectory s0 0 0 cfgB).length =
       (Int.floor (cfgB.predict_time / cfgB.dt)).toNat + 2) :=
  ⟨by norm_num [cfgB, cfgA], by norm_num [cfgB, cfgA],
   predict_trajectory_head_and_length s0 0 0 cfgB (by norm_num [cfgB, cfgA])
     (by norm_num [cfgB, cfgA])⟩

/-- Claim C8: calc_to_goal_cost always lies in [0, pi], and it is 0
whenever the final heading equals the bearing from the final position to
the goal. -/
theorem calc_to_goal_cost_range_and_zero (trajectory : List State) (goal : ℝ × ℝ) :
    0 ≤ calc_to_goal_cost trajectory goal ∧
    calc_to_goal_cost trajectory goal ≤ Real.pi ∧
    ((lastState trajectory).theta =
        atan2 (goal.2 - (lastState trajectory).y)
          (goal.1 - (lastState trajectory).x) →
      calc_to_goal_cost trajectory goal = 0) := by
  refine ⟨abs_nonneg _, ?_, ?_⟩
  · unfold calc_to_goal_cost atan2
    exact Complex.abs_arg_le_pi _
  · intro h
    unfold calc_to_goal_cost
    rw [h, sub_self, Real.sin_zero, Real.cos_zero]
    unfold atan2
    have h1 : (⟨1, 0⟩ : ℂ) = 1 := by
      apply Complex.ext <;> simp
    rw [h1, Complex.arg_one, abs_zero]

/-- Witness for C8: the one-point trajectory at the origin with zero
heading and the goal (1, 0): the bearing is atan2(0, 1) = 0, equal to
the heading, and the cost vanishes. -/
theorem calc_to_goal_cost_range_and_zero_witness :
    (lastState [s0]).theta =
      atan2 (((1 : ℝ), (0 : ℝ)).2 - (lastState [s0]).y)
        (((1 : ℝ), (0 : ℝ)).1 - (lastState [s0]).x) ∧
    calc_to_goal_cost [s0] (1, 0) = 0 := by
  have hlast : lastState [s0] = s0 := rfl
  have key : atan2 (((1 : ℝ), (0 : ℝ)).2 - (lastState [s0]).y)
      (((1 : ℝ), (0 : ℝ)).1 - (lastState [s0]).x) = 0 := by
    unfold atan2
    have h1 : (⟨((1 : ℝ), (0 : ℝ)).1 - (lastState [s0]).x,
        ((1 : ℝ), (0 : ℝ)).2 - (lastState [s0]).y⟩ : ℂ) = 1 := by
      apply Complex.ext <;> (rw [hlast]; simp [s0])
    rw [h1, Complex.arg_one]
  have hh : (lastState [s0]).theta =
      atan2 (((1 : ℝ), (0 : ℝ)).2 - (lastState [s0]).y)
        (((1 : ℝ), (0 : ℝ)).1 - (lastState [s0]).x) := by
    rw [key, hlast]
    rfl
  exact ⟨hh, (calc_to_goal_cost_range_and_zero [s0] (1, 0)).2.2 hh⟩

theorem predictAux_succ_pos {cfg : Config} {u : ℝ × ℝ} {n : ℕ} {time : ℝ}
    {s : State} {trajectory : List State} (h : time ≤ cfg.predict_time) :
    predictAux cfg u (n + 1) time s trajectory =
      predictAux cfg u n (time + cfg.dt) (motion s u cfg.dt cfg.wheelbase)
        (trajectory ++ [motion s u cfg.dt cfg.wheelbase]) := by
  rw [predictAux, if_pos h]

theorem predictAux_succ_neg {cfg : Config} {u : ℝ × ℝ} {n : ℕ} {time : ℝ}
    {s : State} {trajectory : List State} (h : ¬ time ≤ cfg.predict_time) :
    predictAux cfg u (n + 1) time s trajectory = trajectory := by
  rw [predictAux, if_neg h]

theorem ceil_toNat_one {r : ℝ} (h1 : 0 < r) (h2 : r ≤ 1) :
    (Int.ceil r).toNat = 1 := by
  have h : Int.ceil r = 1 := by
    rw [Int.ceil_eq_iff]
    constructor
    · push_cast
      linarith
    · push_cast
      linarith
  rw [h]
  rfl

theorem ceil_toNat_two {r : ℝ} (h1 : 1 < r) (h2 : r ≤ 2) :
    (Int.ceil r).toNat = 2 := by
  have h : Int.ceil r = 2 := by
    rw [Int.ceil_eq_iff]
    constructor
    · push_cast
      linarith
    · push_cast
      linarith
  rw [h]
  rfl

theorem arange_one {start stop step : ℝ}
    (h : (Int.ceil ((stop - start) / step)).toNat = 1) :
    arange start stop step = [start] := by
  unfold arange
  rw [h, show List.range 1 = [0] from rfl]
  simp

theorem arange_two {start stop step : ℝ}
    (h : (Int.ceil ((stop - start) / step)).toNat = 2) :
    arange start stop step = [start, start + step] := by
  unfold arange
  rw [h, show List.range 2 = [0, 1] from rfl]
  simp

theorem candidates_dwA : candidates dwA cfgA = [((0 : ℝ), (-(1/2) : ℝ))] := by
  unfold candidates
  rw [arange_one (ceil_toNat_one (by norm_num [dwA, cfgA]) (by norm_num [dwA, cfgA])),
      arange_one (ceil_toNat_one (by norm_num [dwA, cfgA]) (by norm_num [dwA, cfgA]))]
  norm_num [dwA]

theorem candidates_dwB :
    candidates dwB cfgA = [((0 : ℝ), (1/2 : ℝ)), ((1 : ℝ), (1/2 : ℝ))] := by
  unfold candidates
  rw [arange_two (ceil_toNat_two (by norm_num [dwB, cfgA]) (by norm_num [dwB, cfgA])),
      arange_one (ceil_toNat_one (by norm_num [dwB, cfgA]) (by norm_num [dwB, cfgA]))]
  norm_num [dwB, cfgA]

theorem motion_eval_A :
    motion s0 (0, -(1/2)) cfgA.dt cfgA.wheelbase = (⟨0, 0, 0, 0, -(1/2)⟩ : State) := by
  unfold motion s0
  norm_num [cfgA]

theorem predict_trajectory_eval_A :
    predict_trajectory s0 0 (-(1/2)) cfgA = [s0, ⟨0, 0, 0, 0, -(1/2)⟩] := by
  have hfuel : predictFuel cfgA = 2 := by
    unfold predictFuel
    norm_num [cfgA]
  unfold predict_trajectory
  rw [hfuel]
  rw [show (2 : ℕ) = 1 + 1 from rfl,
    predictAux_succ_pos (by norm_num [cfgA]), motion_eval_A]
  rw [show (1 : ℕ) = 0 + 1 from rfl,
    predictAux_succ_neg (by norm_num [cfgA])]
  rfl

theorem calc_obstacle_cost_circle_ne_top {cfg : Config} {trajectory : List State}
    {ob : List (ℝ × ℝ)} (htype : cfg.robot_type = RobotType.circle)
    (hno : ¬ ∃ r ∈ pairDists trajectory ob, r ≤ cfg.robot_radius) :
    calc_obstacle_cost trajectory ob cfg ≠ ⊤ := by
  unfold calc_obstacle_cost
  rw [htype]
  rw [if_neg hno]
  exact WithTop.coe_ne_top

theorem sqrt_twentyfive : Real.sqrt 25 = 5 := by
  rw [show (25 : ℝ) = 5 ^ 2 by norm_num]
  exact Real.sqrt_sq (by norm_num)

theorem pairDists_eval_A :
    pairDists [s0, ⟨0, 0, 0, 0, -(1/2)⟩] obA = [5, 5] := by
  unfold pairDists obA s0
  norm_num [sqrt_twentyfive]

theorem obstacle_cost_A_ne_top :
    calc_obstacle_cost [s0, ⟨0, 0, 0, 0, -(1/2)⟩] obA cfgA ≠ ⊤ := by
  refine calc_obstacle_cost_circle_ne_top rfl ?_
  rw [pairDists_eval_A]
  rintro ⟨r, hr, hle⟩
  rcases List.mem_cons.mp hr with h | h
  · subst h
    norm_num [cfgA] at hle
  · rcases List.mem_cons.mp h with h | h
    · subst h
      norm_num [cfgA] at hle
    · exact absurd h (List.not_mem_nil r)

theorem trajCost_A_finite : trajCost s0 cfgA goalA obA 0 (-(1/2)) < ⊤ :=
  trajCost_lt_top (by rw [predict_trajectory_eval_A]; exact obstacle_cost_A_ne_top)

theorem trajCost_B_top (v delta : ℝ) : trajCost s0 cfgA goalA obB v delta = ⊤ := by
  refine trajCost_top_of_start_hit rfl ⟨(0, 0), ?_, ?_⟩ v delta
  · unfold obB
    exact List.mem_singleton.mpr rfl
  · norm_num [s0, cfgA]

theorem result_dwA_best_u :
    (calc_control_and_trajectory s0 dwA cfgA goalA obA).1 =
      ((0 : ℝ), -cfgA.max_steering_angle) := by
  have hprod : producedBy s0 cfgA goalA obA
      (planStep s0 cfgA goalA obA ⟨⊤, (0, 0), [s0]⟩ ((0 : ℝ), (-(1/2) : ℝ)))
      ((0 : ℝ), (-(1/2) : ℝ)) :=
    planStep_replace s0 cfgA goalA obA ⟨⊤, (0, 0), [s0]⟩ _ le_top
  have hcond : |((0 : ℝ), (-(1/2) : ℝ)).1| < cfgA.robot_stuck_flag_cons ∧
      |s0.v| < cfgA.robot_stuck_flag_cons := by
    norm_num [s0, cfgA]
  show ((candidates dwA cfgA).foldl (planStep s0 cfgA goalA obA)
    ⟨⊤, (0, 0), [s0]⟩).best_u = _
  rw [candidates_dwA, List.foldl_cons, List.foldl_nil, hprod.2.2, if_pos hcond]

/-- Witness for C4 at the window dwA enumerating only the candidate
(0, -1/2): the selected velocity is 0, below the stuck threshold, the
current speed is 0, and the returned steering is -max_steering_angle. -/
theorem stuck_override_forces_steering_witness :
    candidates dwA cfgA ≠ [] ∧
    |(calc_control_and_trajectory s0 dwA cfgA goalA obA).1.1| <
      cfgA.robot_stuck_flag_cons ∧
    |s0.v| < cfgA.robot_stuck_flag_cons ∧
    ((calc_control_and_trajectory s0 dwA cfgA goalA obA).1.2 =
        -cfgA.max_steering_angle ∧
      ∃ c ∈ candidates dwA cfgA,
        (calc_control_and_trajectory s0 dwA cfgA goalA obA).1.1 = c.1 ∧
        (calc_control_and_trajectory s0 dwA cfgA goalA obA).2 =
          predict_trajectory s0 c.1 c.2 cfgA) := by
  have hne : candidates dwA cfgA ≠ [] := by
    rw [candidates_dwA]
    exact List.cons_ne_nil _ _
  have hv : |(calc_control_and_trajectory s0 dwA cfgA goalA obA).1.1| <
      cfgA.robot_stuck_flag_cons := by
    rw [show (calc_control_and_trajectory s0 dwA cfgA goalA obA).1.1 = (0 : ℝ) from
      by rw [result_dwA_best_u]]
    norm_num [cfgA]
  have hx : |s0.v| < cfgA.robot_stuck_flag_cons := by norm_num [s0, cfgA]
  exact ⟨hne, hv, hx,
    stuck_override_forces_steering s0 dwA cfgA goalA obA hne hv hx⟩

/-- Witness for C1: a trajectory through an obstacle has infinite
obstacle cost, and at the window dwA with the far obstacle obA the
planner selects the finite-cost candidate (0, -1/2). -/
theorem circle_collision_rejected_and_finite_selected_witness :
    calc_obstacle_cost [s0] obB cfgA = ⊤ ∧
    ∃ c ∈ candidates dwA cfgA,
      trajCost s0 cfgA goalA obA c.1 c.2 < ⊤ ∧
      (calc_control_and_trajectory s0 dwA cfgA goalA obA).1.1 = c.1 ∧
      (calc_control_and_trajectory s0 dwA cfgA goalA obA).2 =
        predict_trajectory s0 c.1 c.2 cfgA ∧
      ((calc_control_and_trajectory s0 dwA cfgA goalA obA).1.2 = c.2 ∨
       (calc_control_and_trajectory s0 dwA cfgA goalA obA).1.2 =
         -cfgA.max_steering_angle) := by
  constructor
  · refine circle_collision_rejected_and_finite_selected.1 cfgA [s0] obB rfl
      ⟨s0, List.mem_singleton.mpr rfl, (0, 0), ?_, ?_⟩
    · unfold obB
      exact List.mem_singleton.mpr rfl
    · norm_num [s0, cfgA]
  · exact circle_collision_rejected_and_finite_selected.2 s0 dwA cfgA goalA obA
      ⟨((0 : ℝ), (-(1/2) : ℝ)),
       by rw [candidates_dwA]; exact List.mem_singleton.mpr rfl,
       trajCost_A_finite⟩

/-- Claim C2 fails on the code at this input: with the window dwB every
enumerated candidate collides with the obstacle at the start position
(infinite cost), yet calc_control_and_trajectory returns the last
candidate, whose velocity is 1, not a zero-velocity safe stop. -/
theorem no_feasible_returns_nonzero_velocity :
    (∀ c ∈ candidates dwB cfgA, trajCost s0 cfgA goalA obB c.1 c.2 = ⊤) ∧
    (calc_control_and_trajectory s0 dwB cfgA goalA obB).1.1 ≠ 0 := by
  have htop : ∀ c ∈ candidates dwB cfgA, trajCost s0 cfgA goalA obB c.1 c.2 = ⊤ :=
    fun c _ => trajCost_B_top c.1 c.2
  refine ⟨htop, ?_⟩
  have hprod : producedBy s0 cfgA goalA obB
      ((candidates dwB cfgA).foldl (planStep s0 cfgA goalA obB) ⟨⊤, (0, 0), [s0]⟩)
      ((1 : ℝ), (1/2 : ℝ)) := by
    rw [candidates_dwB]
    exact planFold_last_min s0 cfgA goalA obB [((0 : ℝ), (1/2 : ℝ))] []
      ((1 : ℝ), (1/2 : ℝ))
      (fun c' _ => by rw [trajCost_B_top, trajCost_B_top])
      (fun c' hc' => absurd hc' (List.not_mem_nil c')) (0, 0) [s0]
  have h1 : (calc_control_and_trajectory s0 dwB cfgA goalA obB).1.1 = 1 :=
    producedBy_best_u_fst hprod
  rw [h1]
  norm_num

/-- Witness for the amended C2 at dwB with all candidates colliding: the
returned command is that of the last candidate (1, 1/2). -/
theorem all_infinite_returns_last_candidate_witness :
    candidates dwB cfgA = [((0 : ℝ), (1/2 : ℝ))] ++ [((1 : ℝ), (1/2 : ℝ))] ∧
    (∀ c ∈ candidates dwB cfgA, trajCost s0 cfgA goalA obB c.1 c.2 = ⊤) ∧
    ((calc_control_and_trajectory s0 dwB cfgA goalA obB).1.1 = 1 ∧
     (calc_control_and_trajectory s0 dwB cfgA goalA obB).2 =
       predict_trajectory s0 1 (1/2) cfgA ∧
     ((calc_control_and_trajectory s0 dwB cfgA goalA obB).1.2 = 1/2 ∨
      (calc_control_and_trajectory s0 dwB cfgA goalA obB).1.2 =
        -cfgA.max_steering_angle)) := by
  have hsplit : candidates dwB cfgA =
      [((0 : ℝ), (1/2 : ℝ))] ++ [((1 : ℝ), (1/2 : ℝ))] := by
    rw [candidates_dwB]
    rfl
  have htop : ∀ c ∈ candidates dwB cfgA, trajCost s0 cfgA goalA obB c.1 c.2 = ⊤ :=
    fun c _ => trajCost_B_top c.1 c.2
  exact ⟨hsplit, htop,
    all_infinite_returns_last_candidate s0 dwB cfgA goalA obB
      [((0 : ℝ), (1/2 : ℝ))] ((1 : ℝ), (1/2 : ℝ)) hsplit htop⟩

/-- Witness for C6: at the window dwB both candidates have the same
(infinite) cost, and the later candidate (1, 1/2) is the one returned;
the step-level tie also replaces the incumbent. -/
theorem tie_break_prefers_later_candidate_witness :
    trajCost s0 cfgA goalA obB 1 (1/2) =
      (⟨⊤, ((0 : ℝ), (0 : ℝ)), [s0]⟩ : PlanAcc).min_cost ∧
    producedBy s0 cfgA goalA obB
      (planStep s0 cfgA goalA obB ⟨⊤, (0, 0), [s0]⟩ ((1 : ℝ), (1/2 : ℝ)))
      ((1 : ℝ), (1/2 : ℝ)) ∧
    ((calc_control_and_trajectory s0 dwB cfgA goalA obB).1.1 = 1 ∧
     (calc_control_and_trajectory s0 dwB cfgA goalA obB).2 =
       predict_trajectory s0 1 (1/2) cfgA ∧
     ((calc_control_and_trajectory s0 dwB cfgA goalA obB).1.2 = 1/2 ∨
      (calc_control_and_trajectory s0 dwB cfgA goalA obB).1.2 =
        -cfgA.max_steering_angle)) := by
  have heq : trajCost s0 cfgA goalA obB 1 (1/2) =
      (⟨⊤, ((0 : ℝ), (0 : ℝ)), [s0]⟩ : PlanAcc).min_cost := trajCost_B_top 1 (1/2)
  have hsplit : candidates dwB cfgA =
      [((0 : ℝ), (1/2 : ℝ))] ++ ((1 : ℝ), (1/2 : ℝ)) :: [] := by
    rw [candidates_dwB]
    rfl
  refine ⟨heq,
    tie_break_prefers_later_candidate.1 s0 cfgA goalA obB ⟨⊤, (0, 0), [s0]⟩
      ((1 : ℝ), (1/2 : ℝ)) heq,
    tie_break_prefers_later_candidate.2 s0 dwB cfgA goalA obB
      [((0 : ℝ), (1/2 : ℝ))] [] ((1 : ℝ), (1/2 : ℝ)) hsplit ?_ ?_⟩
  · intro c' _
    rw [trajCost_B_top, trajCost_B_top]
  · intro c' hc'
    exact absurd hc' (List.not_mem_nil c')

/-- Witness for C7 at the window dwC, empty on the velocity axis. -/
theorem empty_window_returns_zero_command_witness :
    0 < cfgA.v_resolution ∧ 0 < cfgA.steering_resolution ∧
    (dwC.vmax < dwC.vmin ∨ dwC.smax < dwC.smin) ∧
    (calc_control_and_trajectory s0 dwC cfgA goalA obA).1 = (0, 0) :=
  ⟨by norm_num [cfgA], by norm_num [cfgA], Or.inl (by norm_num [dwC]),
   empty_window_returns_zero_command s0 dwC cfgA goalA obA (by norm_num [cfgA])
     (by norm_num [cfgA]) (Or.inl (by norm_num [dwC]))⟩

/-- Witness for C10 at the one-point trajectory [s0] and the far
obstacle obA: the cost is finite and the minimal distance 5 is
positive. -/
theorem calc_obstacle_cost_division_safe_witness :
    ([s0] : List State) ≠ [] ∧ obA ≠ [] ∧
    (0 : ℝ) ≤ cfgA.robot_radius ∧ (0 : ℝ) ≤ cfgA.robot_length ∧
    (0 : ℝ) ≤ cfgA.robot_width ∧
    calc_obstacle_cost [s0] obA cfgA ≠ ⊤ ∧
    0 < listMin (pairDists [s0] obA) := by
  have htr : ([s0] : List State) ≠ [] := List.cons_ne_nil _ _
  have hob : obA ≠ [] := by
    unfold obA
    exact List.cons_ne_nil _ _
  have hne : calc_obstacle_cost [s0] obA cfgA ≠ ⊤ := by
    refine calc_obstacle_cost_circle_ne_top rfl ?_
    have hpd : pairDists [s0] obA = [5] := by
      unfold pairDists obA s0
      norm_num [sqrt_twentyfive]
    rw [hpd]
    rintro ⟨r, hr, hle⟩
    rw [List.mem_singleton] at hr
    subst hr
    norm_num [cfgA] at hle
  refine ⟨htr, hob, by norm_num [cfgA], by norm_num [cfgA], by norm_num [cfgA],
    hne, ?_⟩
  exact (calc_obstacle_cost_division_safe cfgA [s0] obA htr hob
    (by norm_num [cfgA]) (by norm_num [cfgA]) (by norm_num [cfgA])).2 hne

end AMR
